import Mathlib

/-!
Shallow embedding of `src/edward/inferences/klqp.py` (variational inference
with the KL divergence).

The TensorFlow computation graph is embedded as scalars carrying a numeric
value together with a gradient with respect to each trainable parameter
(parameters indexed by naturals); `tf.stop_gradient` zeroes the gradient
component, `tf.gradients` reads it off, and applying a log-density to a
tensor follows the chain rule.  Python dicts become association lists with
the overwrite-in-place insertion semantics of dict assignment (this matters:
`p_log_probs = [{}] * n_samples` in the source aliases one single dict
across all sample indices).  Opaque collaborators that are not part of this
file's source (RandomVariable's `log_prob`, `sample`, `get_descendants`,
`get_variables`, the `copy` operation, model wrappers) are supplied by an
environment of uninterpreted functions; `kl_multivariate_normal` from
`edward.util` is not in src/ and is modelled from the spec (section 4.7).
-/

namespace EdwardKLqp

/-- Scalar node of the TensorFlow graph: a numeric value together with its
gradient with respect to each trainable parameter. -/
structure TFScalar (K : Type) where
  val : K
  grd : Nat → K

variable {K : Type} [Field K]

/-- Constant tensor (observed data, Python float literals): zero gradient. -/
def constT (c : K) : TFScalar K := ⟨c, fun _ => 0⟩

/-- Tensor addition (the `+=` accumulations in the source). -/
def addT (x y : TFScalar K) : TFScalar K :=
  ⟨x.val + y.val, fun i => x.grd i + y.grd i⟩

/-- Tensor subtraction (`p_log_prob - q_log_prob`). -/
def subT (x y : TFScalar K) : TFScalar K :=
  ⟨x.val - y.val, fun i => x.grd i - y.grd i⟩

/-- Tensor negation. -/
def negT (x : TFScalar K) : TFScalar K := ⟨-x.val, fun i => -x.grd i⟩

/-- Tensor multiplication, product rule for the gradient. -/
def mulT (x y : TFScalar K) : TFScalar K :=
  ⟨x.val * y.val, fun i => x.grd i * y.val + x.val * y.grd i⟩

/-- Embedding of `tf.stop_gradient`: same value, no gradient flow. -/
def stop_gradient (x : TFScalar K) : TFScalar K := ⟨x.val, fun _ => 0⟩

/-- Embedding of `tf.reduce_sum` applied to a Python list of scalar tensors. -/
def sumT (l : List (TFScalar K)) : TFScalar K :=
  ⟨(l.map (fun x => x.val)).sum, fun i => (l.map (fun x => x.grd i)).sum⟩

/-- Embedding of `tf.reduce_mean` over a packed (`tf.pack`) rank-1 tensor,
here a list of per-sample scalars. -/
def reduce_mean (l : List (TFScalar K)) : TFScalar K :=
  ⟨(l.map (fun x => x.val)).sum / (l.length : K),
   fun i => (l.map (fun x => x.grd i)).sum / (l.length : K)⟩

/-- Embedding of `tf.gradients(e, var_list)`. -/
def gradientsT (e : TFScalar K) (var_list : List Nat) : List K :=
  var_list.map e.grd

/-- Python dict assignment `d[k] = v`: overwrite in place if the key exists,
append otherwise. -/
def dinsert (d : List (Nat × α)) (k : Nat) (v : α) : List (Nat × α) :=
  if d.any (fun e => e.1 == k) then
    d.map (fun e => if e.1 == k then (k, v) else e)
  else d ++ [(k, v)]

/-- Python dict read `d[k]`; the default stands in for the KeyError case,
which is unreachable in the executions the theorems describe. -/
def dget (d : List (Nat × α)) (k : Nat) (dflt : α) : α :=
  (List.lookup k d).getD dflt

/-- Key list of a dict. -/
def dkeys (d : List (Nat × α)) : List Nat := d.map (fun e => e.1)

/-- Value projection of a dict of tensors (the numeric substitution map the
uninterpreted log-densities read). -/
def dvals (d : List (Nat × TFScalar K)) : List (Nat × K) :=
  d.map (fun e => (e.1, e.2.val))

/-- A model wrapper: opaque `log_prob(x, z_sample)` and `log_lik(x, z_sample)`
tensors; `hasLogLik` is `hasattr(wrapper, 'log_lik')`. -/
structure ModelWrapper (K : Type) where
  log_prob : List (Nat × Bool × K) → List (Nat × TFScalar K) → TFScalar K
  log_lik : List (Nat × Bool × K) → List (Nat × TFScalar K) → TFScalar K
  hasLogLik : Bool

/-- The inference state together with the uninterpreted collaborators of the
source file.  `latent_vars` is the (z, qz) association (dict iteration
order); `data` entries are (key, isinstance RandomVariable, observed value).
`sampleVal`/`sampleGrd` give the value and parameter-gradient of the fresh
sample `copy(qz, scope s).value()`.  `qVal`/`qDParam`/`qDArg` describe the
scalar `tf.reduce_sum(qz.log_prob(x))` as a differentiable function of the
parameters and of the argument x.  `pVal` and its partials describe
`tf.reduce_sum(copy(rv, dict_swap, scope).log_prob(x))` as a function of the
substitution values and of x (the copy is deterministic given the
substitution, so the scope index does not appear).  `klGrd` is the opaque
parameter-gradient of the analytic KL tensor, `qEntropyT` the opaque
`qz.entropy()` tensor. -/
structure Env (K : Type) where
  latent_vars : List (Nat × Nat)
  data : List (Nat × Bool × K)
  model_wrapper : Option (ModelWrapper K)
  n_samples : Nat
  score : Bool
  sampleVal : Nat → Nat → K
  sampleGrd : Nat → Nat → Nat → K
  qVal : Nat → K → K
  qDParam : Nat → K → Nat → K
  qDArg : Nat → K → K
  pVal : Nat → List (Nat × K) → K → K
  pDParam : Nat → List (Nat × K) → K → Nat → K
  pDSwap : Nat → List (Nat × K) → K → Nat → K
  pDArg : Nat → List (Nat × K) → K → K
  isNormal : Nat → Bool
  is_reparameterized : Nat → Bool
  is_continuous : Nat → Bool
  mu : Nat → List K
  sigma : Nat → List K
  qEntropyT : Nat → TFScalar K
  klGrd : Nat → K
  get_descendants : Nat → List Nat → List Nat
  get_variables : Nat → List Nat → List Nat
  lg : K → K

/-- The fresh posterior sample `copy(qz, scope='inference_' + str(s)).value()`
drawn for latent z at sample index s. -/
def sampleT (env : Env K) (s z : Nat) : TFScalar K :=
  ⟨env.sampleVal s z, env.sampleGrd s z⟩

/-- `tf.reduce_sum(qz.log_prob(x))`: chain rule through the parameters and
through the argument tensor. -/
def q_term (env : Env K) (qz : Nat) (x : TFScalar K) : TFScalar K :=
  ⟨env.qVal qz x.val,
   fun i => env.qDParam qz x.val i + env.qDArg qz x.val * x.grd i⟩

/-- `tf.reduce_sum(copy(rv, dict_swap, scope).log_prob(x))`: chain rule
through the parameters, through every substituted tensor, and through the
argument tensor. -/
def p_term (env : Env K) (rv : Nat) (swap : List (Nat × TFScalar K))
    (x : TFScalar K) : TFScalar K :=
  ⟨env.pVal rv (dvals swap) x.val,
   fun i => env.pDParam rv (dvals swap) x.val i
     + (swap.map (fun e => env.pDSwap rv (dvals swap) x.val e.1 * e.2.grd i)).sum
     + env.pDArg rv (dvals swap) x.val * x.grd i⟩

/-- One iteration of the sampling loop, source lines 326-330 (and 482-487,
611-616, 667-672): extend the z_sample dict with the fresh sample and add
the latent's q log-density to the accumulator; withStop selects the
`tf.stop_gradient` wrapping of the sample used by the score builders. -/
def qStepF (env : Env K) (s : Nat) (withStop : Bool)
    (acc : List (Nat × TFScalar K) × TFScalar K) (zq : Nat × Nat) :
    List (Nat × TFScalar K) × TFScalar K :=
  (dinsert acc.1 zq.1 (sampleT env s zq.1),
   addT acc.2 (q_term env zq.2
     (if withStop then stop_gradient (sampleT env s zq.1)
      else sampleT env s zq.1)))

/-- Sampling loop, source lines 324-330 (and 480-487, 609-616, 665-672):
builds the per-sample z_sample dict and accumulates q_log_prob[s]. -/
def qSampleStep (env : Env K) (s : Nat) (withStop : Bool) :
    List (Nat × TFScalar K) × TFScalar K :=
  env.latent_vars.foldl (qStepF env s withStop) ([], constT 0)

/-- The z_sample loop of the builders that do not accumulate q log-densities
(source lines 380-384, 435-439). -/
def zSampleDict (env : Env K) (s : Nat) : List (Nat × TFScalar K) :=
  env.latent_vars.foldl (fun d zq => dinsert d zq.1 (sampleT env s zq.1)) []

/-- Source lines 336-339: `dict_swap = z_sample` (the same dict object!)
extended with every observed RandomVariable mapped to its observed value. -/
def dict_swap (env : Env K) (zs : List (Nat × TFScalar K)) :
    List (Nat × TFScalar K) :=
  env.data.foldl (fun d e => if e.2.1 then dinsert d e.1 (constT e.2.2) else d) zs

/-- Source lines 341-348: accumulate every latent prior's log-density at its
sample (read back from the dict, which dict_swap aliases) and every observed
RandomVariable's log-density at its observation. -/
def pAccum (env : Env K) (swap : List (Nat × TFScalar K)) : TFScalar K :=
  env.data.foldl
    (fun acc e => if e.2.1 then addT acc (p_term env e.1 swap (constT e.2.2)) else acc)
    (env.latent_vars.foldl
      (fun acc zq => addT acc (p_term env zq.1 swap (dget swap zq.1 (constT 0))))
      (constT 0))

/-- Source lines 395-398 (and 627-630): likelihood-only accumulation, no
latent prior terms. -/
def pLikAccum (env : Env K) (swap : List (Nat × TFScalar K)) : TFScalar K :=
  env.data.foldl
    (fun acc e => if e.2.1 then addT acc (p_term env e.1 swap (constT e.2.2)) else acc)
    (constT 0)

/-- Modelled from the spec: `kl_multivariate_normal` lives in `edward.util`,
which is not under src/.  Spec section 4.7 gives the diagonal-Gaussian
closed form, per dimension  lg(sp/sq) + (sq^2 + (mq - mp)^2)/(2 sp^2) - 1/2,
as a tensor over dimensions (`tf.reduce_sum` is applied by the callers). -/
def kl_multivariate_normal (lg : K → K)
    (loc_one scale_one loc_two scale_two : List K) : List K :=
  List.zipWith
    (fun a b => lg (b.2 / a.2) + (a.2 ^ 2 + (a.1 - b.1) ^ 2) / (2 * b.2 ^ 2) - 1 / 2)
    (loc_one.zip scale_one) (loc_two.zip scale_two)

/-- Modelled from the spec: the two-argument form of `kl_multivariate_normal`
defaults the second distribution to the standard normal N(0, 1). -/
def kl_multivariate_normal_std (lg : K → K) (loc_one scale_one : List K) :
    List K :=
  kl_multivariate_normal lg loc_one scale_one
    (loc_one.map (fun _ => 0)) (loc_one.map (fun _ => 1))

/-- Source lines 405-411 (identical lines 638-644): the analytic KL term,
against each latent's own Gaussian prior parameters on the graph path and
against N(0, 1) under a model wrapper. -/
def klOf (env : Env K) : K :=
  match env.model_wrapper with
  | none =>
    (env.latent_vars.map (fun zq =>
      (kl_multivariate_normal env.lg (env.mu zq.2) (env.sigma zq.2)
        (env.mu zq.1) (env.sigma zq.1)).sum)).sum
  | some _ =>
    (env.latent_vars.map (fun zq =>
      (kl_multivariate_normal_std env.lg (env.mu zq.2) (env.sigma zq.2)).sum)).sum

/-- Source lines 464-465 (and 698-699): the analytic entropy term. -/
def q_entropy (env : Env K) : TFScalar K :=
  sumT (env.latent_vars.map (fun zq => env.qEntropyT zq.2))

/-- Source lines 309-356: `build_reparam_loss`. -/
def build_reparam_loss (env : Env K) : TFScalar K :=
  let per := fun s =>
    let zq := qSampleStep env s false
    match env.model_wrapper with
    | none => (pAccum env (dict_swap env zq.1), zq.2)
    | some w => (w.log_prob env.data zq.1, zq.2)
  let p_log_prob := (List.range env.n_samples).map (fun s => (per s).1)
  let q_log_prob := (List.range env.n_samples).map (fun s => (per s).2)
  negT (reduce_mean (List.zipWith subT p_log_prob q_log_prob))

/-- Source lines 359-414: `build_reparam_kl_loss`. -/
def build_reparam_kl_loss (env : Env K) : TFScalar K :=
  let p_log_lik := (List.range env.n_samples).map (fun s =>
    let zs := zSampleDict env s
    match env.model_wrapper with
    | none => pLikAccum env (dict_swap env zs)
    | some w => w.log_lik env.data zs)
  negT (subT (reduce_mean p_log_lik) ⟨klOf env, env.klGrd⟩)

/-- Source lines 417-468: `build_reparam_entropy_loss`. -/
def build_reparam_entropy_loss (env : Env K) : TFScalar K :=
  let p_log_prob := (List.range env.n_samples).map (fun s =>
    let zs := zSampleDict env s
    match env.model_wrapper with
    | none => pAccum env (dict_swap env zs)
    | some w => w.log_prob env.data zs)
  negT (addT (reduce_mean p_log_prob) (q_entropy env))

/-- Source lines 471-519: `build_score_loss_and_gradients`. -/
def build_score_loss_and_gradients (env : Env K) (var_list : List Nat) :
    TFScalar K × List (K × Nat) :=
  let per := fun s =>
    let zq := qSampleStep env s true
    match env.model_wrapper with
    | none => (pAccum env (dict_swap env zq.1), zq.2)
    | some w => (w.log_prob env.data zq.1, zq.2)
  let p_log_prob := (List.range env.n_samples).map (fun s => (per s).1)
  let q_log_prob := (List.range env.n_samples).map (fun s => (per s).2)
  let losses := List.zipWith subT p_log_prob q_log_prob
  let loss := negT (reduce_mean losses)
  let grads := gradientsT
    (negT (reduce_mean (List.zipWith mulT q_log_prob (losses.map stop_gradient))))
    var_list
  (loss, List.zip grads var_list)

/-- Source lines 595-651: `build_score_kl_loss_and_gradients`. -/
def build_score_kl_loss_and_gradients (env : Env K) (var_list : List Nat) :
    TFScalar K × List (K × Nat) :=
  let per := fun s =>
    let zq := qSampleStep env s true
    match env.model_wrapper with
    | none => (pLikAccum env (dict_swap env zq.1), zq.2)
    | some w => (w.log_lik env.data zq.1, zq.2)
  let p_log_lik := (List.range env.n_samples).map (fun s => (per s).1)
  let q_log_prob := (List.range env.n_samples).map (fun s => (per s).2)
  let loss := negT (subT (reduce_mean p_log_lik) ⟨klOf env, env.klGrd⟩)
  let grads := gradientsT
    (negT (subT (reduce_mean (List.zipWith mulT q_log_prob (p_log_lik.map stop_gradient)))
      ⟨klOf env, env.klGrd⟩))
    var_list
  (loss, List.zip grads var_list)

/-- Source lines 654-707: `build_score_entropy_loss_and_gradients`. -/
def build_score_entropy_loss_and_gradients (env : Env K) (var_list : List Nat) :
    TFScalar K × List (K × Nat) :=
  let per := fun s =>
    let zq := qSampleStep env s true
    match env.model_wrapper with
    | none => (pAccum env (dict_swap env zq.1), zq.2)
    | some w => (w.log_prob env.data zq.1, zq.2)
  let p_log_prob := (List.range env.n_samples).map (fun s => (per s).1)
  let q_log_prob := (List.range env.n_samples).map (fun s => (per s).2)
  let loss := negT (addT (reduce_mean p_log_prob) (q_entropy env))
  let grads := gradientsT
    (negT (addT (reduce_mean (List.zipWith mulT q_log_prob (p_log_prob.map stop_gradient)))
      (q_entropy env)))
    var_list
  (loss, List.zip grads var_list)

/-- One iteration of the sampling loop of the Rao-Blackwellized builder,
source lines 541-547: fresh z_sample dict plus the shared q record dict
extended (overwritten) with this index's q log-densities, each sample
wrapped in `tf.stop_gradient`. -/
def rbQStepF (env : Env K) (s : Nat)
    (acc : List (Nat × TFScalar K) × List (Nat × TFScalar K)) (zq : Nat × Nat) :
    List (Nat × TFScalar K) × List (Nat × TFScalar K) :=
  (dinsert acc.1 zq.1 (sampleT env s zq.1),
   dinsert acc.2 zq.1 (q_term env zq.2 (stop_gradient (sampleT env s zq.1))))

/-- One sample index of the record loop of the Rao-Blackwellized builder,
source lines 539-565, threading the pair (p record dict, q record dict). -/
def rbIter (env : Env K)
    (recs : List (Nat × TFScalar K) × List (Nat × TFScalar K)) (s : Nat) :
    List (Nat × TFScalar K) × List (Nat × TFScalar K) :=
  let qstep := env.latent_vars.foldl (rbQStepF env s) ([], recs.2)
  let swap := dict_swap env qstep.1
  let prec := env.data.foldl
    (fun d e => if e.2.1 then dinsert d e.1 (p_term env e.1 swap (constT e.2.2)) else d)
    (env.latent_vars.foldl
      (fun d zq => dinsert d zq.1 (p_term env zq.1 swap (dget swap zq.1 (constT 0))))
      recs.1)
  (prec, qstep.2)

/-- Source lines 537-565: the record loop of
`build_score_rb_loss_and_gradients`.  `p_log_probs = [{}] * n_samples` and
`q_log_probs = [{}] * n_samples` each alias ONE dict object across all
sample indices, so the loop threads a single p dict and a single q dict,
overwriting the same keys at every sample index; `z_sample = {}` inside the
loop is genuinely fresh per index. -/
def rb_records (env : Env K) :
    List (Nat × TFScalar K) × List (Nat × TFScalar K) :=
  (List.range env.n_samples).foldl (rbIter env) ([], [])

/-- Source lines 568-570: the model RandomVariables, latents then observed. -/
def model_rvs (env : Env K) : List Nat :=
  env.latent_vars.map (fun zq => zq.1) ++
    (env.data.filter (fun e => e.2.1)).map (fun e => e.1)

/-- Source lines 572-588: the per-variational-factor gradient computation of
the Rao-Blackwellized builder.  Reads of `q_log_probs[s][rv]` and
`p_log_probs[s][rv]` hit the single shared dict for every s. -/
def rb_factor_grads (env : Env K) (var_list : List Nat) (zq : Nat × Nat) :
    List (K × Nat) :=
  let recs := rb_records env
  let mrvs_i := env.get_descendants zq.1 (model_rvs env) ++ [zq.1]
  let qi_log_prob := (List.range env.n_samples).map (fun _ =>
    sumT ((mrvs_i.filter (fun rv => env.latent_vars.any (fun z2 => z2.1 == rv))).map
      (fun rv => dget recs.2 rv (constT 0))))
  let pi_log_prob := (List.range env.n_samples).map (fun _ =>
    sumT (mrvs_i.map (fun rv => dget recs.1 rv (constT 0))))
  let qz_vars := env.get_variables zq.2 var_list
  let grads := gradientsT
    (negT (reduce_mean (List.zipWith mulT qi_log_prob
      ((List.zipWith subT pi_log_prob qi_log_prob).map stop_gradient))))
    qz_vars
  List.zip grads qz_vars

/-- Source lines 522-592: `build_score_rb_loss_and_gradients`. -/
def build_score_rb_loss_and_gradients (env : Env K) (var_list : List Nat) :
    TFScalar K × List (K × Nat) :=
  let recs := rb_records env
  let gvs := env.latent_vars.foldl
    (fun acc zq => acc ++ rb_factor_grads env var_list zq) []
  let loss := negT (subT (sumT (recs.1.map (fun e => e.2)))
                         (sumT (recs.2.map (fun e => e.2))))
  (loss, gvs)

/-- Source lines 39-44: the score-flag resolution of `KLqp.initialize`. -/
def klqp_init_score (latent_vars : List (Nat × Nat))
    (is_repar is_cont : Nat → Bool) (score : Option Bool) : Bool :=
  if score.isNone && latent_vars.all (fun zq => is_repar zq.2 && is_cont zq.2)
  then false else true

/-- hasattr(self.model_wrapper, 'log_lik'); `None` has no such attribute. -/
def wrapper_has_log_lik : Option (ModelWrapper K) → Bool
  | none => false
  | some w => w.hasLogLik

/-- Source lines 74-79: the analytic-availability check of
`KLqp.build_loss_and_gradients`. -/
def is_analytic_kl (env : Env K) : Bool :=
  (env.latent_vars.all (fun zq => env.isNormal zq.2)) &&
    ((env.latent_vars.all (fun zq => env.isNormal zq.1)) ||
      wrapper_has_log_lik env.model_wrapper)

/-- The objective builders of the source file, as a closed set of tags. -/
inductive BuilderTag where
  | reparam
  | reparamKl
  | reparamEntropy
  | scoreVanilla
  | scoreRb
  | scoreKl
  | scoreEntropy
deriving DecidableEq

/-- Source lines 80-99: the dispatch structure of
`KLqp.build_loss_and_gradients` (the analytic-entropy branches are commented
out in the source and so absent here). -/
def dispatch_tag (score analytic : Bool) : BuilderTag :=
  if score then
    (if analytic then BuilderTag.scoreKl else BuilderTag.scoreRb)
  else
    (if analytic then BuilderTag.reparamKl else BuilderTag.reparam)

/-- Source lines 80-99: `KLqp.build_loss_and_gradients`. -/
def build_loss_and_gradients (env : Env K) (var_list : List Nat) :
    TFScalar K × List (K × Nat) :=
  if env.score then
    if is_analytic_kl env then build_score_kl_loss_and_gradients env var_list
    else build_score_rb_loss_and_gradients env var_list
  else
    let loss := if is_analytic_kl env then build_reparam_kl_loss env
                else build_reparam_loss env
    (loss, List.zip (gradientsT loss var_list) var_list)

/-- Source lines 163-190: `ReparameterizationEntropyKLqp.build_loss` invokes
the analytic-entropy builder directly. -/
def ReparameterizationEntropyKLqp_build_loss (env : Env K) : TFScalar K :=
  build_reparam_entropy_loss env

/-- Source lines 280-306: `ScoreEntropyKLqp.build_loss_and_gradients` invokes
the analytic-entropy builder directly. -/
def ScoreEntropyKLqp_build_loss_and_gradients (env : Env K)
    (var_list : List Nat) : TFScalar K × List (K × Nat) :=
  build_score_entropy_loss_and_gradients env var_list

/-- Dict invariants guaranteed by the source (latent_vars and data are Python
dicts, so keys are unique, and a RandomVariable is either a latent key or an
observed key, never both). -/
def EnvWF (env : Env K) : Prop :=
  (env.latent_vars.map (fun zq => zq.1)).Nodup ∧
  ((env.data.filter (fun e => e.2.1)).map (fun e => e.1)).Nodup ∧
  ∀ z ∈ env.latent_vars.map (fun zq => zq.1),
    z ∉ (env.data.filter (fun e => e.2.1)).map (fun e => e.1)

instance (env : Env K) : Decidable (EnvWF env) := by
  unfold EnvWF; infer_instance

/-- Spec 4.4 step 1: q_log_prob[s] is the sum over latents of the summed
log-density of qz at the fresh sample drawn for index s. -/
def spec_q_log_prob (env : Env K) (s : Nat) : K :=
  (env.latent_vars.map (fun zq => env.qVal zq.2 (env.sampleVal s zq.1))).sum

/-- Parameter-gradient of q_log_prob[s] when the sampled value is held
constant by `tf.stop_gradient`: only the direct parameter dependence of each
log-density remains. -/
def spec_q_grd (env : Env K) (s : Nat) (v : Nat) : K :=
  (env.latent_vars.map (fun zq => env.qDParam zq.2 (env.sampleVal s zq.1) v)).sum

/-- Spec 4.4 step 2: the substitution mapping replacing each latent with its
index-s sample and each observed RandomVariable with its observed value. -/
def spec_swap (env : Env K) (s : Nat) : List (Nat × K) :=
  env.latent_vars.map (fun zq => (zq.1, env.sampleVal s zq.1)) ++
    (env.data.filter (fun e => e.2.1)).map (fun e => (e.1, e.2.2))

/-- The per-sample latent-to-sample mapping handed to a model wrapper. -/
def spec_z_sample (env : Env K) (s : Nat) : List (Nat × TFScalar K) :=
  env.latent_vars.map (fun zq => (zq.1, sampleT env s zq.1))

/-- Spec 4.4 steps 3-4: p_log_prob[s] is every latent prior's plus every
observed RandomVariable's log-density under the substitution (graph path),
or `model_wrapper.log_prob(data, z_sample)` (wrapper path). -/
def spec_p_log_prob (env : Env K) (s : Nat) : K :=
  match env.model_wrapper with
  | none =>
    (env.latent_vars.map (fun zq =>
      env.pVal zq.1 (spec_swap env s) (env.sampleVal s zq.1))).sum +
    ((env.data.filter (fun e => e.2.1)).map (fun e =>
      env.pVal e.1 (spec_swap env s) e.2.2)).sum
  | some w => (w.log_prob env.data (spec_z_sample env s)).val

/-- Spec 4.4 step 3, likelihood-only variant: p_log_lik[s] accumulates only
observation log-densities. -/
def spec_p_log_lik (env : Env K) (s : Nat) : K :=
  match env.model_wrapper with
  | none =>
    ((env.data.filter (fun e => e.2.1)).map (fun e =>
      env.pVal e.1 (spec_swap env s) e.2.2)).sum
  | some w => (w.log_lik env.data (spec_z_sample env s)).val

/-- Spec 4.5/4.7: the closed-form KL term, against each latent's own Gaussian
prior parameters on the graph path, and against the standard normal N(0, 1)
under a model wrapper. -/
def spec_kl (env : Env K) : K :=
  match env.model_wrapper with
  | none =>
    (env.latent_vars.map (fun zq =>
      (kl_multivariate_normal env.lg (env.mu zq.2) (env.sigma zq.2)
        (env.mu zq.1) (env.sigma zq.1)).sum)).sum
  | some _ =>
    (env.latent_vars.map (fun zq =>
      (kl_multivariate_normal env.lg (env.mu zq.2) (env.sigma zq.2)
        ((env.mu zq.2).map (fun _ => 0)) ((env.mu zq.2).map (fun _ => 1))).sum)).sum

/-- The q log-density the Rao-Blackwellized record dict actually holds for a
model RandomVariable rv after the loop: the one computed from the LAST
sample index (all indices alias one dict), 0 if rv is not a latent key. -/
def spec_rb_q_record (env : Env K) (rv : Nat) : K :=
  match env.latent_vars.find? (fun zq => zq.1 == rv) with
  | some zq => env.qVal zq.2 (env.sampleVal (env.n_samples - 1) zq.1)
  | none => 0

/-- Parameter-gradient of the recorded q log-density (sample held constant
by `tf.stop_gradient`). -/
def spec_rb_q_record_grd (env : Env K) (rv v : Nat) : K :=
  match env.latent_vars.find? (fun zq => zq.1 == rv) with
  | some zq => env.qDParam zq.2 (env.sampleVal (env.n_samples - 1) zq.1) v
  | none => 0

/-- The model log-density the Rao-Blackwellized record dict actually holds
for rv after the loop: evaluated under the last index's substitution, at the
last sample for a latent and at the observation for an observed
RandomVariable; 0 if rv is recorded under neither. -/
def spec_rb_p_record (env : Env K) (rv : Nat) : K :=
  if env.latent_vars.any (fun zq => zq.1 == rv) then
    env.pVal rv (spec_swap env (env.n_samples - 1))
      (env.sampleVal (env.n_samples - 1) rv)
  else
    match (env.data.filter (fun e => e.2.1)).find? (fun e => e.1 == rv) with
    | some e => env.pVal rv (spec_swap env (env.n_samples - 1)) e.2.2
    | none => 0

/-- Source line 573: z's descendants among the model RandomVariables,
together with z itself. -/
def spec_rb_mrvs (env : Env K) (zq : Nat × Nat) : List Nat :=
  env.get_descendants zq.1 (model_rvs env) ++ [zq.1]

/-- The recorded q log-density restricted to z and its descendants. -/
def spec_rb_qi (env : Env K) (zq : Nat × Nat) : K :=
  (((spec_rb_mrvs env zq).filter
      (fun rv => env.latent_vars.any (fun z2 => z2.1 == rv))).map
    (fun rv => spec_rb_q_record env rv)).sum

/-- Parameter-gradient of the restricted recorded q log-density. -/
def spec_rb_qi_grd (env : Env K) (zq : Nat × Nat) (v : Nat) : K :=
  (((spec_rb_mrvs env zq).filter
      (fun rv => env.latent_vars.any (fun z2 => z2.1 == rv))).map
    (fun rv => spec_rb_q_record_grd env rv v)).sum

/-- The recorded model log-density restricted to z and its descendants. -/
def spec_rb_pi (env : Env K) (zq : Nat × Nat) : K :=
  ((spec_rb_mrvs env zq).map (fun rv => spec_rb_p_record env rv)).sum

/-- A small concrete inference state used to instantiate the theorems: one
latent (z = 0 approximated by qz = 10), one observed RandomVariable
(x = 1, observation 5), one non-RandomVariable data entry (key 2). -/
def baseEnv : Env ℚ where
  latent_vars := [(0, 10)]
  data := [(1, true, 5), (2, false, 7)]
  model_wrapper := none
  n_samples := 1
  score := true
  sampleVal := fun s z => (s : ℚ) + (z : ℚ)
  sampleGrd := fun _ _ _ => 0
  qVal := fun q x => (q : ℚ) * x
  qDParam := fun _ x _ => x
  qDArg := fun q _ => (q : ℚ)
  pVal := fun rv _ x => (rv : ℚ) + x
  pDParam := fun _ _ _ _ => 0
  pDSwap := fun _ _ _ _ => 0
  pDArg := fun _ _ _ => 1
  isNormal := fun _ => true
  is_reparameterized := fun _ => true
  is_continuous := fun _ => true
  mu := fun _ => [0]
  sigma := fun _ => [1]
  qEntropyT := fun _ => constT 0
  klGrd := fun _ => 0
  get_descendants := fun _ _ => []
  get_variables := fun _ l => l
  lg := fun x => x

/-- The failing input for the record-aliasing defect of
`build_score_rb_loss_and_gradients`: two Monte Carlo samples, one latent
whose sample at index s has value s, q log-density 2x, model log-density 3x
at the sampled point. -/
def envC8 : Env ℚ where
  latent_vars := [(0, 10)]
  data := []
  model_wrapper := none
  n_samples := 2
  score := true
  sampleVal := fun s _ => (s : ℚ)
  sampleGrd := fun _ _ _ => 0
  qVal := fun _ x => 2 * x
  qDParam := fun _ _ _ => 0
  qDArg := fun _ _ => 0
  pVal := fun _ _ x => 3 * x
  pDParam := fun _ _ _ _ => 0
  pDSwap := fun _ _ _ _ => 0
  pDArg := fun _ _ _ => 0
  isNormal := fun _ => false
  is_reparameterized := fun _ => false
  is_continuous := fun _ => false
  mu := fun _ => []
  sigma := fun _ => []
  qEntropyT := fun _ => constT 0
  klGrd := fun _ => 0
  get_descendants := fun _ _ => []
  get_variables := fun _ l => l
  lg := fun x => x

/-! Generic facts about the Python-dict embedding and the tensor folds. -/

theorem dany_eq_mem (d : List (Nat × α)) (k : Nat) :
    (d.any (fun e => e.1 == k)) = true ↔ k ∈ dkeys d := by
  unfold dkeys
  rw [List.any_eq_true]
  constructor
  · rintro ⟨e, he, hbe⟩
    have h1 : e.1 = k := by simpa using hbe
    exact h1 ▸ List.mem_map_of_mem _ he
  · intro hk
    rcases List.mem_map.mp hk with ⟨e, he, hke⟩
    exact ⟨e, he, by simpa using hke⟩

theorem dkeys_append (A B : List (Nat × α)) :
    dkeys (A ++ B) = dkeys A ++ dkeys B := by
  simp [dkeys]

theorem dkeys_pairs (kf : γ → Nat) (vf : γ → α) (l : List γ) :
    dkeys (l.map (fun x => (kf x, vf x))) = l.map kf := by
  simp [dkeys, List.map_map]

theorem dinsert_absent {d : List (Nat × α)} {k : Nat} (h : k ∉ dkeys d) (v : α) :
    dinsert d k v = d ++ [(k, v)] := by
  have hb : (d.any (fun e => e.1 == k)) = false := by
    rw [Bool.eq_false_iff]
    intro hc
    exact h ((dany_eq_mem d k).mp hc)
  unfold dinsert
  rw [hb]
  simp

theorem dinsert_cons_ne {k0 : Nat} {w : α} {t : List (Nat × α)} {k : Nat}
    (h : k0 ≠ k) (v : α) :
    dinsert ((k0, w) :: t) k v = (k0, w) :: dinsert t k v := by
  by_cases hb : (t.any (fun e => e.1 == k)) = true
  · simp [dinsert, hb, h]
  · rw [Bool.not_eq_true] at hb
    simp [dinsert, hb, h]

theorem map_keep_of_not_mem {d : List (Nat × α)} {k : Nat}
    (h : k ∉ dkeys d) (v : α) :
    d.map (fun e => if e.1 == k then (k, v) else e) = d := by
  induction d with
  | nil => rfl
  | cons a t ih =>
    have ha : a.1 ≠ k := by
      intro he
      exact h (by simp [dkeys, he])
    have ht : k ∉ dkeys t := by
      intro he
      exact h (by simp [dkeys] at he ⊢; exact Or.inr he)
    have ha2 : (a.1 == k) = false := by simpa using ha
    simp only [List.map_cons, ha2, Bool.false_eq_true, if_false]
    rw [ih ht]

theorem dinsert_head {k : Nat} {w : α} {t : List (Nat × α)}
    (h : k ∉ dkeys t) (v : α) :
    dinsert ((k, w) :: t) k v = (k, v) :: t := by
  have hb : (((k, w) :: t).any (fun e => e.1 == k)) = true := by simp
  simp only [dinsert, hb, if_true, List.map_cons]
  rw [map_keep_of_not_mem h v]
  simp

theorem foldl_dinsert_cons {kf : γ → Nat} {vf : γ → α} {l : List γ}
    {k0 : Nat} {w : α} {t : List (Nat × α)}
    (h : ∀ x ∈ l, kf x ≠ k0) :
    l.foldl (fun d x => dinsert d (kf x) (vf x)) ((k0, w) :: t) =
      (k0, w) :: l.foldl (fun d x => dinsert d (kf x) (vf x)) t := by
  induction l generalizing t with
  | nil => rfl
  | cons a l ih =>
    simp only [List.foldl_cons]
    rw [dinsert_cons_ne (fun he => h a (by simp) he.symm)]
    exact ih (fun x hx => h x (by simp [hx]))

theorem foldl_dinsert_fresh (kf : γ → Nat) (vf : γ → α) (l : List γ)
    (acc : List (Nat × α))
    (hn : (l.map kf).Nodup) (hf : ∀ x ∈ l, kf x ∉ dkeys acc) :
    l.foldl (fun d x => dinsert d (kf x) (vf x)) acc =
      acc ++ l.map (fun x => (kf x, vf x)) := by
  induction l generalizing acc with
  | nil => simp
  | cons a l ih =>
    simp only [List.foldl_cons, List.map_cons]
    rw [dinsert_absent (hf a (by simp))]
    rw [ih _ (by simpa using hn.of_cons) ?_]
    · simp
    · intro x hx he
      rw [dkeys_append] at he
      rcases List.mem_append.mp he with h1 | h1
      · exact hf x (by simp [hx]) h1
      · have h2 : kf x = kf a := by simpa [dkeys] using h1
        exact (List.nodup_cons.mp hn).1 (h2 ▸ List.mem_map_of_mem kf hx)

theorem foldl_dinsert_refresh (kf : γ → Nat) (vf : γ → α) (l : List γ)
    (B : List (Nat × α)) (old : γ → α)
    (hn : (l.map kf).Nodup) (hB : ∀ x ∈ l, kf x ∉ dkeys B) :
    l.foldl (fun d x => dinsert d (kf x) (vf x))
        (l.map (fun x => (kf x, old x)) ++ B) =
      l.map (fun x => (kf x, vf x)) ++ B := by
  induction l with
  | nil => simp
  | cons a l ih =>
    have hna : kf a ∉ l.map kf := (List.nodup_cons.mp hn).1
    simp only [List.map_cons, List.cons_append, List.foldl_cons]
    rw [dinsert_head ?_]
    · rw [foldl_dinsert_cons ?_]
      · rw [ih (by simpa using hn.of_cons) (fun x hx => hB x (by simp [hx]))]
      · intro x hx he
        exact hna (he ▸ List.mem_map_of_mem kf hx)
    · rw [dkeys_append, dkeys_pairs]
      intro he
      rcases List.mem_append.mp he with h1 | h1
      · exact hna h1
      · exact hB a (by simp) h1

theorem dinsert_append_left {A B : List (Nat × α)} {k : Nat}
    (h : k ∉ dkeys A) (v : α) :
    dinsert (A ++ B) k v = A ++ dinsert B k v := by
  have hA : (A.any (fun e => e.1 == k)) = false := by
    rw [Bool.eq_false_iff]
    intro hc
    exact h ((dany_eq_mem A k).mp hc)
  by_cases hb : (B.any (fun e => e.1 == k)) = true
  · have : ((A ++ B).any (fun e => e.1 == k)) = true := by
      simp [List.any_append, hA, hb]
    simp only [dinsert, this, hb, if_true, List.map_append]
    rw [map_keep_of_not_mem h v]
  · rw [Bool.not_eq_true] at hb
    have : ((A ++ B).any (fun e => e.1 == k)) = false := by
      simp [List.any_append, hA, hb]
    simp [dinsert, this, hb]

theorem foldl_dinsert_skip (kf : γ → Nat) (vf : γ → α) (l : List γ)
    (A B : List (Nat × α))
    (h : ∀ x ∈ l, kf x ∉ dkeys A) :
    l.foldl (fun d x => dinsert d (kf x) (vf x)) (A ++ B) =
      A ++ l.foldl (fun d x => dinsert d (kf x) (vf x)) B := by
  induction l generalizing B with
  | nil => rfl
  | cons a l ih =>
    simp only [List.foldl_cons]
    rw [dinsert_append_left (h a (by simp))]
    exact ih _ (fun x hx => h x (by simp [hx]))

theorem foldl_guard_filter (p : γ → Bool) (f : δ → γ → δ) (l : List γ) (b : δ) :
    l.foldl (fun d x => if p x then f d x else d) b = (l.filter p).foldl f b := by
  induction l generalizing b with
  | nil => rfl
  | cons a l ih =>
    by_cases hp : p a = true
    · simp [List.filter_cons, hp, ih]
    · rw [Bool.not_eq_true] at hp
      simp [List.filter_cons, hp, ih]

theorem lookup_not_mem {d : List (Nat × α)} {k : Nat} (h : k ∉ dkeys d) :
    List.lookup k d = none := by
  induction d with
  | nil => rfl
  | cons a t ih =>
    have ha : k ≠ a.1 := by
      intro he
      exact h (by simp [dkeys, he])
    have : (k == a.1) = false := by simpa using ha
    simp only [List.lookup, this]
    exact ih (fun he => h (by simp [dkeys] at he ⊢; exact Or.inr he))

theorem lookup_append_of_mem {A B : List (Nat × α)} {k : Nat}
    (h : k ∈ dkeys A) :
    List.lookup k (A ++ B) = List.lookup k A := by
  induction A with
  | nil => simp [dkeys] at h
  | cons a t ih =>
    by_cases he : k = a.1
    · have : (k == a.1) = true := by simpa using he
      simp [List.lookup, this]
    · have hb : (k == a.1) = false := by simpa using he
      simp only [List.cons_append, List.lookup, hb]
      exact ih (by simp [dkeys] at h ⊢; tauto)

theorem lookup_append_of_not_mem {A B : List (Nat × α)} {k : Nat}
    (h : k ∉ dkeys A) :
    List.lookup k (A ++ B) = List.lookup k B := by
  induction A with
  | nil => rfl
  | cons a t ih =>
    have ha : k ≠ a.1 := by
      intro he
      exact h (by simp [dkeys, he])
    have hb : (k == a.1) = false := by simpa using ha
    simp only [List.cons_append, List.lookup, hb]
    exact ih (fun he => h (by simp [dkeys] at he ⊢; exact Or.inr he))

theorem lookup_map_self (kf : γ → Nat) (vf : γ → α) {l : List γ}
    (hn : (l.map kf).Nodup) {x : γ} (hx : x ∈ l) :
    List.lookup (kf x) (l.map (fun y => (kf y, vf y))) = some (vf x) := by
  induction l with
  | nil => cases hx
  | cons a l ih =>
    rcases List.mem_cons.mp hx with he | hm
    · subst he
      simp [List.lookup]
    · have hna : kf a ∉ l.map kf := (List.nodup_cons.mp hn).1
      have hne : (kf x == kf a) = false := by
        simp only [beq_eq_false_iff_ne, ne_eq]
        intro he
        exact hna (he ▸ List.mem_map_of_mem kf hm)
      simp only [List.map_cons, List.lookup, hne]
      exact ih (by simpa using hn.of_cons) hm

theorem foldl_addT_val (f : γ → TFScalar K) (l : List γ) (c : TFScalar K) :
    (l.foldl (fun acc x => addT acc (f x)) c).val =
      c.val + (l.map (fun x => (f x).val)).sum := by
  induction l generalizing c with
  | nil => simp
  | cons a l ih =>
    simp only [List.foldl_cons, List.map_cons, List.sum_cons]
    rw [ih]
    simp [addT, add_assoc]

theorem foldl_addT_grd (f : γ → TFScalar K) (l : List γ) (c : TFScalar K)
    (i : Nat) :
    (l.foldl (fun acc x => addT acc (f x)) c).grd i =
      c.grd i + (l.map (fun x => (f x).grd i)).sum := by
  induction l generalizing c with
  | nil => simp
  | cons a l ih =>
    simp only [List.foldl_cons, List.map_cons, List.sum_cons]
    rw [ih]
    simp [addT, add_assoc]

theorem zipWith_map_map (h2 : α → β → γ) (f : δ → α) (g : δ → β) (l : List δ) :
    List.zipWith h2 (l.map f) (l.map g) = l.map (fun x => h2 (f x) (g x)) := by
  induction l with
  | nil => rfl
  | cons a l ih => simp [ih]

theorem foldl_qStepF (env : Env K) (s : Nat) (b : Bool) (l : List (Nat × Nat))
    (d : List (Nat × TFScalar K)) (c : TFScalar K) :
    l.foldl (qStepF env s b) (d, c) =
      (l.foldl (fun d2 zq => dinsert d2 zq.1 (sampleT env s zq.1)) d,
       l.foldl (fun c2 zq => addT c2 (q_term env zq.2
         (if b then stop_gradient (sampleT env s zq.1)
          else sampleT env s zq.1))) c) := by
  induction l generalizing d c with
  | nil => rfl
  | cons a l ih => simp [List.foldl_cons, qStepF, ih]

theorem qSampleStep_fst (env : Env K) (s : Nat) (b : Bool) :
    (qSampleStep env s b).1 = zSampleDict env s := by
  unfold qSampleStep zSampleDict
  rw [foldl_qStepF]

theorem ifStop_val (b : Bool) (x : TFScalar K) :
    (if b then stop_gradient x else x).val = x.val := by
  cases b <;> rfl

theorem qSampleStep_snd_val (env : Env K) (s : Nat) (b : Bool) :
    (qSampleStep env s b).2.val = spec_q_log_prob env s := by
  unfold qSampleStep spec_q_log_prob
  rw [foldl_qStepF]
  simp only [foldl_addT_val]
  simp [q_term, constT, ifStop_val, sampleT]

theorem qSampleStep_snd_grd (env : Env K) (s : Nat) (v : Nat) :
    (qSampleStep env s true).2.grd v = spec_q_grd env s v := by
  unfold qSampleStep spec_q_grd
  rw [foldl_qStepF]
  simp only [foldl_addT_grd]
  simp [q_term, constT, stop_gradient, sampleT]

theorem dkeys_spec_z (env : Env K) (s : Nat) :
    dkeys (spec_z_sample env s) = env.latent_vars.map (fun zq => zq.1) := by
  unfold spec_z_sample
  exact dkeys_pairs _ _ _

theorem zSampleDict_eq (env : Env K) (s : Nat)
    (h : (env.latent_vars.map (fun zq => zq.1)).Nodup) :
    zSampleDict env s = spec_z_sample env s := by
  unfold zSampleDict spec_z_sample
  have h2 := foldl_dinsert_fresh (fun zq : Nat × Nat => zq.1)
    (fun zq : Nat × Nat => sampleT env s zq.1) env.latent_vars
    [] h (by simp [dkeys])
  simpa using h2

theorem dict_swap_eq (env : Env K) (s : Nat) (hw : EnvWF env) :
    dict_swap env (spec_z_sample env s) =
      spec_z_sample env s ++
        (env.data.filter (fun e => e.2.1)).map (fun e => (e.1, constT e.2.2)) := by
  unfold dict_swap
  rw [foldl_guard_filter]
  refine foldl_dinsert_fresh (fun e : Nat × Bool × K => e.1)
    (fun e : Nat × Bool × K => constT e.2.2) _ _ hw.2.1 ?_
  intro e he hk
  rw [dkeys_spec_z] at hk
  exact hw.2.2 e.1 hk (List.mem_map_of_mem _ he)

theorem dvals_swap (env : Env K) (s : Nat) (hw : EnvWF env) :
    dvals (dict_swap env (spec_z_sample env s)) = spec_swap env s := by
  rw [dict_swap_eq env s hw]
  unfold dvals spec_swap spec_z_sample
  rw [List.map_append, List.map_map, List.map_map]
  rfl

theorem dget_swap_latent (env : Env K) (s : Nat) (hw : EnvWF env)
    {zq : Nat × Nat} (hz : zq ∈ env.latent_vars) :
    dget (dict_swap env (spec_z_sample env s)) zq.1 (constT 0) =
      sampleT env s zq.1 := by
  rw [dict_swap_eq env s hw]
  unfold dget
  rw [lookup_append_of_mem ?_]
  · unfold spec_z_sample
    rw [lookup_map_self (fun zq : Nat × Nat => zq.1)
      (fun zq : Nat × Nat => sampleT env s zq.1) hw.1 hz]
    rfl
  · rw [dkeys_spec_z]
    exact List.mem_map_of_mem _ hz

theorem pAccum_val (env : Env K) (s : Nat) (hw : EnvWF env) :
    (pAccum env (dict_swap env (spec_z_sample env s))).val =
      (env.latent_vars.map (fun zq =>
        env.pVal zq.1 (spec_swap env s) (env.sampleVal s zq.1))).sum +
      ((env.data.filter (fun e => e.2.1)).map (fun e =>
        env.pVal e.1 (spec_swap env s) e.2.2)).sum := by
  unfold pAccum
  rw [foldl_guard_filter]
  rw [foldl_addT_val, foldl_addT_val]
  have hlat : env.latent_vars.map (fun zq =>
        (p_term env zq.1 (dict_swap env (spec_z_sample env s))
          (dget (dict_swap env (spec_z_sample env s)) zq.1 (constT 0))).val) =
      env.latent_vars.map (fun zq =>
        env.pVal zq.1 (spec_swap env s) (env.sampleVal s zq.1)) := by
    apply List.map_congr_left
    intro zq hz
    simp [p_term, dvals_swap env s hw, dget_swap_latent env s hw hz, sampleT]
  rw [hlat]
  have hdata : (env.data.filter (fun e => e.2.1)).map (fun e =>
        (p_term env e.1 (dict_swap env (spec_z_sample env s)) (constT e.2.2)).val) =
      (env.data.filter (fun e => e.2.1)).map (fun e =>
        env.pVal e.1 (spec_swap env s) e.2.2) := by
    apply List.map_congr_left
    intro e he
    simp [p_term, dvals_swap env s hw, constT]
  rw [hdata]
  simp [constT]

theorem negT_mean_val (l : List (TFScalar K)) :
    (negT (reduce_mean l)).val =
      -((l.map (fun x => x.val)).sum / (l.length : K)) := rfl

theorem negT_mean_grd (l : List (TFScalar K)) (v : Nat) :
    (negT (reduce_mean l)).grd v =
      -((l.map (fun x => x.grd v)).sum / (l.length : K)) := rfl

theorem zip_map_self (f : α → β) (l : List α) :
    List.zip (l.map f) l = l.map (fun x => (f x, x)) := by
  induction l with
  | nil => rfl
  | cons a l ih => simp [ih]

theorem pLikAccum_val (env : Env K) (s : Nat) (hw : EnvWF env) :
    (pLikAccum env (dict_swap env (spec_z_sample env s))).val =
      ((env.data.filter (fun e => e.2.1)).map (fun e =>
        env.pVal e.1 (spec_swap env s) e.2.2)).sum := by
  unfold pLikAccum
  rw [foldl_guard_filter]
  rw [foldl_addT_val]
  have hdata : (env.data.filter (fun e => e.2.1)).map (fun e =>
        (p_term env e.1 (dict_swap env (spec_z_sample env s)) (constT e.2.2)).val) =
      (env.data.filter (fun e => e.2.1)).map (fun e =>
        env.pVal e.1 (spec_swap env s) e.2.2) := by
    apply List.map_congr_left
    intro e he
    simp [p_term, dvals_swap env s hw, constT]
  rw [hdata]
  simp [constT]

/-! Claim theorems. -/

/-- C1: for n_samples >= 1, `build_reparam_loss` returns
loss = -mean over s of (p_log_prob[s] - q_log_prob[s]), with q_log_prob[s]
the summed log-densities of each qz at its fresh per-sample draw, and
p_log_prob[s] either the substituted joint of all latent priors and observed
RandomVariables (graph path) or `model_wrapper.log_prob(data, z_sample)`
(wrapper path). -/
theorem klqp_C1 (env : Env ℚ) (hw : EnvWF env) (hn : 1 ≤ env.n_samples) :
    (build_reparam_loss env).val =
      -(((List.range env.n_samples).map
          (fun s => spec_p_log_prob env s - spec_q_log_prob env s)).sum /
        (env.n_samples : ℚ)) := by
  simp only [build_reparam_loss]
  cases hmw : env.model_wrapper with
  | none =>
    rw [zipWith_map_map, negT_mean_val, List.map_map, List.length_map,
      List.length_range]
    congr 1
    congr 1
    apply congrArg List.sum
    apply List.map_congr_left
    intro s hs
    simp only [Function.comp_apply, subT]
    rw [qSampleStep_fst, zSampleDict_eq env s hw.1, qSampleStep_snd_val,
      pAccum_val env s hw]
    simp [spec_p_log_prob, hmw]
  | some w =>
    rw [zipWith_map_map, negT_mean_val, List.map_map, List.length_map,
      List.length_range]
    congr 1
    congr 1
    apply congrArg List.sum
    apply List.map_congr_left
    intro s hs
    simp only [Function.comp_apply, subT]
    rw [qSampleStep_fst, zSampleDict_eq env s hw.1, qSampleStep_snd_val]
    simp [spec_p_log_prob, hmw]

theorem score_loss_val (env : Env K) (var_list : List Nat) (hw : EnvWF env) :
    (build_score_loss_and_gradients env var_list).1.val =
      -(((List.range env.n_samples).map
          (fun s => spec_p_log_prob env s - spec_q_log_prob env s)).sum /
        (env.n_samples : K)) := by
  simp only [build_score_loss_and_gradients]
  cases hmw : env.model_wrapper with
  | none =>
    rw [zipWith_map_map, negT_mean_val, List.map_map, List.length_map,
      List.length_range]
    congr 1
    congr 1
    apply congrArg List.sum
    apply List.map_congr_left
    intro s hs
    simp only [Function.comp_apply, subT]
    rw [qSampleStep_fst, zSampleDict_eq env s hw.1, qSampleStep_snd_val,
      pAccum_val env s hw]
    simp [spec_p_log_prob, hmw]
  | some w =>
    rw [zipWith_map_map, negT_mean_val, List.map_map, List.length_map,
      List.length_range]
    congr 1
    congr 1
    apply congrArg List.sum
    apply List.map_congr_left
    intro s hs
    simp only [Function.comp_apply, subT]
    rw [qSampleStep_fst, zSampleDict_eq env s hw.1, qSampleStep_snd_val]
    simp [spec_p_log_prob, hmw]

theorem score_grads_eq (env : Env K) (var_list : List Nat) (hw : EnvWF env) :
    (build_score_loss_and_gradients env var_list).2 =
      var_list.map (fun v =>
        (-(((List.range env.n_samples).map (fun s =>
              spec_q_grd env s v *
                (spec_p_log_prob env s - spec_q_log_prob env s))).sum /
            (env.n_samples : K)), v)) := by
  simp only [build_score_loss_and_gradients]
  cases hmw : env.model_wrapper with
  | none =>
    unfold gradientsT
    rw [zip_map_self]
    apply List.map_congr_left
    intro v hv
    rw [zipWith_map_map, List.map_map, zipWith_map_map, negT_mean_grd,
      List.map_map, List.length_map, List.length_range]
    congr 1
    congr 1
    congr 1
    apply congrArg List.sum
    apply List.map_congr_left
    intro s hs
    simp only [Function.comp_apply, mulT, stop_gradient, subT]
    rw [qSampleStep_snd_grd, qSampleStep_snd_val, qSampleStep_fst,
      zSampleDict_eq env s hw.1, pAccum_val env s hw]
    simp [spec_p_log_prob, hmw]
  | some w =>
    unfold gradientsT
    rw [zip_map_self]
    apply List.map_congr_left
    intro v hv
    rw [zipWith_map_map, List.map_map, zipWith_map_map, negT_mean_grd,
      List.map_map, List.length_map, List.length_range]
    congr 1
    congr 1
    congr 1
    apply congrArg List.sum
    apply List.map_congr_left
    intro s hs
    simp only [Function.comp_apply, mulT, stop_gradient, subT]
    rw [qSampleStep_snd_grd, qSampleStep_snd_val, qSampleStep_fst,
      zSampleDict_eq env s hw.1]
    simp [spec_p_log_prob, hmw]

/-- C2: `build_score_loss_and_gradients` returns
loss = -mean_s(p_log_prob[s] - q_log_prob[s]) and one (gradient, parameter)
pair per element of var_list in order, the gradients being those of the
surrogate -mean_s(q_log_prob[s] * stopgrad(p_log_prob[s] - q_log_prob[s]));
q_log_prob is evaluated with the sample under stop-gradient, so (graph path)
the gradient pairs are unchanged under any perturbation of the samples'
parameter-gradients. -/
theorem klqp_C2 (env : Env ℚ) (var_list : List Nat) (hw : EnvWF env) :
    (build_score_loss_and_gradients env var_list).1.val =
      -(((List.range env.n_samples).map
          (fun s => spec_p_log_prob env s - spec_q_log_prob env s)).sum /
        (env.n_samples : ℚ)) ∧
    (build_score_loss_and_gradients env var_list).2 =
      var_list.map (fun v =>
        (-(((List.range env.n_samples).map (fun s =>
              spec_q_grd env s v *
                (spec_p_log_prob env s - spec_q_log_prob env s))).sum /
            (env.n_samples : ℚ)), v)) ∧
    (env.model_wrapper = none →
      ∀ g2, (build_score_loss_and_gradients
          { env with sampleGrd := g2 } var_list).2 =
        (build_score_loss_and_gradients env var_list).2) := by
  refine ⟨score_loss_val env var_list hw, score_grads_eq env var_list hw, ?_⟩
  intro hmw g2
  rw [score_grads_eq { env with sampleGrd := g2 } var_list hw,
    score_grads_eq env var_list hw]
  apply List.map_congr_left
  intro v hv
  simp [spec_q_grd, spec_q_log_prob, spec_p_log_prob, spec_swap, hmw]

theorem klqp_C2_witness :
    EnvWF baseEnv ∧
    ((build_score_loss_and_gradients baseEnv [3]).1.val =
      -(((List.range baseEnv.n_samples).map
          (fun s => spec_p_log_prob baseEnv s - spec_q_log_prob baseEnv s)).sum /
        (baseEnv.n_samples : ℚ)) ∧
    (build_score_loss_and_gradients baseEnv [3]).2 =
      [3].map (fun v =>
        (-(((List.range baseEnv.n_samples).map (fun s =>
              spec_q_grd baseEnv s v *
                (spec_p_log_prob baseEnv s - spec_q_log_prob baseEnv s))).sum /
            (baseEnv.n_samples : ℚ)), v)) ∧
    (baseEnv.model_wrapper = none →
      ∀ g2, (build_score_loss_and_gradients
          { baseEnv with sampleGrd := g2 } [3]).2 =
        (build_score_loss_and_gradients baseEnv [3]).2)) :=
  ⟨by decide, klqp_C2 baseEnv [3] (by decide)⟩

/-- C6: `build_reparam_kl_loss` returns loss = -(mean_s(p_log_lik[s]) - KL),
where p_log_lik[s] accumulates only observation log-densities (no latent
prior terms), and KL sums the closed-form Gaussian term over all latents:
against (z.mu, z.sigma) on the graph path and against N(0, 1) under a model
wrapper. -/
theorem klqp_C6 (env : Env ℚ) (hw : EnvWF env) :
    (build_reparam_kl_loss env).val =
      -(((List.range env.n_samples).map (fun s => spec_p_log_lik env s)).sum /
          (env.n_samples : ℚ) - spec_kl env) := by
  simp only [build_reparam_kl_loss]
  cases hmw : env.model_wrapper with
  | none =>
    simp only [negT, subT]
    congr 1
    congr 1
    simp only [reduce_mean, List.map_map, List.length_map, List.length_range]
    congr 1
    apply congrArg List.sum
    apply List.map_congr_left
    intro s hs
    simp only [Function.comp_apply]
    rw [zSampleDict_eq env s hw.1, pLikAccum_val env s hw]
    simp [spec_p_log_lik, hmw]
  | some w =>
    simp only [negT, subT]
    congr 1
    congr 1
    simp only [reduce_mean, List.map_map, List.length_map, List.length_range]
    congr 1
    apply congrArg List.sum
    apply List.map_congr_left
    intro s hs
    simp only [Function.comp_apply]
    rw [zSampleDict_eq env s hw.1]
    simp [spec_p_log_lik, hmw]

theorem klqp_C6_witness :
    EnvWF baseEnv ∧
    (build_reparam_kl_loss baseEnv).val =
      -(((List.range baseEnv.n_samples).map (fun s => spec_p_log_lik baseEnv s)).sum /
          (baseEnv.n_samples : ℚ) - spec_kl baseEnv) :=
  ⟨by decide, klqp_C6 baseEnv (by decide)⟩

/-- C3: with score left as None, `KLqp.initialize` resolves
self.score = false exactly when every approximating RandomVariable is both
reparameterized and continuous; score=True forces self.score = true. -/
theorem klqp_C3 (latent_vars : List (Nat × Nat)) (is_repar is_cont : Nat → Bool)
    (score : Option Bool) :
    (score = none →
      (klqp_init_score latent_vars is_repar is_cont score = false ↔
        ∀ zq ∈ latent_vars, is_repar zq.2 = true ∧ is_cont zq.2 = true)) ∧
    (score = some true →
      klqp_init_score latent_vars is_repar is_cont score = true) := by
  constructor
  · intro hs
    subst hs
    have key : klqp_init_score latent_vars is_repar is_cont none = false ↔
        latent_vars.all (fun zq => is_repar zq.2 && is_cont zq.2) = true := by
      unfold klqp_init_score
      by_cases hall : latent_vars.all (fun zq => is_repar zq.2 && is_cont zq.2) = true
      · simp [hall]
      · rw [Bool.not_eq_true] at hall
        simp [hall]
    rw [key, List.all_eq_true]
    simp only [Bool.and_eq_true]
  · intro hs
    subst hs
    unfold klqp_init_score
    have h : ((some true : Option Bool).isNone &&
        latent_vars.all (fun zq => is_repar zq.2 && is_cont zq.2)) = false := by
      simp
    rw [h]
    rfl

theorem klqp_C3_witness :
    ((some true : Option Bool) = none →
      (klqp_init_score [(0, 10)] (fun _ => true) (fun _ => true) (some true) = false ↔
        ∀ zq ∈ [(0, 10)], (fun _ : Nat => true) zq.2 = true ∧
          (fun _ : Nat => true) zq.2 = true)) ∧
    ((some true : Option Bool) = some true →
      klqp_init_score [(0, 10)] (fun _ => true) (fun _ => true) (some true) = true) :=
  klqp_C3 [(0, 10)] (fun _ => true) (fun _ => true) (some true)

/-- C10: passing score=False explicitly still resolves self.score = true,
even when every approximation is reparameterized and continuous; only
score=None enables the reparameterization default. -/
theorem klqp_C10 (latent_vars : List (Nat × Nat)) (is_repar is_cont : Nat → Bool)
    (hall : ∀ zq ∈ latent_vars, is_repar zq.2 = true ∧ is_cont zq.2 = true) :
    klqp_init_score latent_vars is_repar is_cont (some false) = true := by
  unfold klqp_init_score
  have h : ((some false : Option Bool).isNone &&
      latent_vars.all (fun zq => is_repar zq.2 && is_cont zq.2)) = false := by
    simp
  rw [h]
  rfl

theorem klqp_C10_witness :
    (∀ zq ∈ [(0, 10)], (fun _ : Nat => true) zq.2 = true ∧
      (fun _ : Nat => true) zq.2 = true) ∧
    klqp_init_score [(0, 10)] (fun _ => true) (fun _ => true) (some false) = true :=
  ⟨by decide, klqp_C10 [(0, 10)] (fun _ => true) (fun _ => true) (by decide)⟩

/-- C5: is_analytic_kl holds exactly when every approximating RandomVariable
is Normal and either every model-side key is Normal or the model wrapper
exposes a log_lik attribute. -/
theorem klqp_C5 (env : Env ℚ) :
    is_analytic_kl env = true ↔
      (∀ zq ∈ env.latent_vars, env.isNormal zq.2 = true) ∧
      ((∀ zq ∈ env.latent_vars, env.isNormal zq.1 = true) ∨
        ∃ w, env.model_wrapper = some w ∧ w.hasLogLik = true) := by
  unfold is_analytic_kl
  rw [Bool.and_eq_true, Bool.or_eq_true, List.all_eq_true, List.all_eq_true]
  cases hmw : env.model_wrapper with
  | none => simp [wrapper_has_log_lik]
  | some w => simp [wrapper_has_log_lik]

theorem klqp_C1_witness :
    EnvWF baseEnv ∧ 1 ≤ baseEnv.n_samples ∧
    (build_reparam_loss baseEnv).val =
      -(((List.range baseEnv.n_samples).map
          (fun s => spec_p_log_prob baseEnv s - spec_q_log_prob baseEnv s)).sum /
        (baseEnv.n_samples : ℚ)) :=
  ⟨by decide, by decide, klqp_C1 baseEnv (by decide) (by decide)⟩

/-- C4: `KLqp.build_loss_and_gradients` dispatches exactly per the table
(use_score, is_analytic_kl) and never selects an analytic-entropy builder,
which remain invokable only directly by name. -/
theorem klqp_C4 (env : Env ℚ) (var_list : List Nat) :
    (dispatch_tag false true = BuilderTag.reparamKl ∧
     dispatch_tag false false = BuilderTag.reparam ∧
     dispatch_tag true true = BuilderTag.scoreKl ∧
     dispatch_tag true false = BuilderTag.scoreRb) ∧
    (∀ sc an, dispatch_tag sc an ≠ BuilderTag.reparamEntropy ∧
      dispatch_tag sc an ≠ BuilderTag.scoreEntropy) ∧
    (env.score = false → is_analytic_kl env = true →
      build_loss_and_gradients env var_list =
        (build_reparam_kl_loss env,
         List.zip (gradientsT (build_reparam_kl_loss env) var_list) var_list)) ∧
    (env.score = false → is_analytic_kl env = false →
      build_loss_and_gradients env var_list =
        (build_reparam_loss env,
         List.zip (gradientsT (build_reparam_loss env) var_list) var_list)) ∧
    (env.score = true → is_analytic_kl env = true →
      build_loss_and_gradients env var_list =
        build_score_kl_loss_and_gradients env var_list) ∧
    (env.score = true → is_analytic_kl env = false →
      build_loss_and_gradients env var_list =
        build_score_rb_loss_and_gradients env var_list) ∧
    ReparameterizationEntropyKLqp_build_loss env =
      build_reparam_entropy_loss env ∧
    ScoreEntropyKLqp_build_loss_and_gradients env var_list =
      build_score_entropy_loss_and_gradients env var_list := by
  refine ⟨⟨rfl, rfl, rfl, rfl⟩, ?_, ?_, ?_, ?_, ?_, rfl, rfl⟩
  · intro sc an
    cases sc <;> cases an <;> exact ⟨by decide, by decide⟩
  · intro hs ha
    simp [build_loss_and_gradients, hs, ha]
  · intro hs ha
    simp [build_loss_and_gradients, hs, ha]
  · intro hs ha
    simp [build_loss_and_gradients, hs, ha]
  · intro hs ha
    simp [build_loss_and_gradients, hs, ha]

theorem klqp_C4_witness :
    ({ baseEnv with score := false }.score = false ∧
      is_analytic_kl { baseEnv with score := false } = true) ∧
    (build_loss_and_gradients { baseEnv with score := false } [3] =
      (build_reparam_kl_loss { baseEnv with score := false },
       List.zip (gradientsT
         (build_reparam_kl_loss { baseEnv with score := false }) [3]) [3])) :=
  ⟨⟨by decide, by decide⟩,
    ((klqp_C4 { baseEnv with score := false } [3]).2.2.1 (by decide) (by decide))⟩

/-- Per-dimension fact for the spec 4.7 closed form: non-negative, and zero
exactly at equal means and equal scales. -/
theorem kl_dim_nonneg (mq sq mp sp : ℝ) (hsq : 0 < sq) (hsp : 0 < sp) :
    0 ≤ Real.log (sp / sq) + (sq ^ 2 + (mq - mp) ^ 2) / (2 * sp ^ 2) - 1 / 2 ∧
    (Real.log (sp / sq) + (sq ^ 2 + (mq - mp) ^ 2) / (2 * sp ^ 2) - 1 / 2 = 0 ↔
      mq = mp ∧ sq = sp) := by
  have hsp2 : (0 : ℝ) < sp ^ 2 := by positivity
  have hsq2 : (0 : ℝ) < sq ^ 2 := by positivity
  have hrat : (0 : ℝ) < sq ^ 2 / sp ^ 2 := by positivity
  have hlog : Real.log (sq ^ 2 / sp ^ 2) ≤ sq ^ 2 / sp ^ 2 - 1 :=
    Real.log_le_sub_one_of_pos hrat
  have hlogeq : Real.log (sq ^ 2 / sp ^ 2) = 2 * Real.log sq - 2 * Real.log sp := by
    rw [Real.log_div (ne_of_gt hsq2) (ne_of_gt hsp2), Real.log_pow, Real.log_pow]
    push_cast
    ring
  have hexpr : Real.log (sp / sq) = Real.log sp - Real.log sq :=
    Real.log_div hsp.ne' hsq.ne'
  have key : Real.log (sp / sq) + (sq ^ 2 + (mq - mp) ^ 2) / (2 * sp ^ 2) - 1 / 2 =
      (1 / 2) * ((sq ^ 2 / sp ^ 2 - 1) - Real.log (sq ^ 2 / sp ^ 2)) +
        (mq - mp) ^ 2 / (2 * sp ^ 2) := by
    rw [hexpr, hlogeq]
    field_simp
    ring
  have h2 : (0 : ℝ) ≤ (mq - mp) ^ 2 / (2 * sp ^ 2) := by positivity
  have h1 : (0 : ℝ) ≤ (1 / 2) * ((sq ^ 2 / sp ^ 2 - 1) - Real.log (sq ^ 2 / sp ^ 2)) := by
    linarith
  constructor
  · rw [key]
    linarith
  · rw [key]
    constructor
    · intro h0
      have hz1 : (1 / 2) * ((sq ^ 2 / sp ^ 2 - 1) - Real.log (sq ^ 2 / sp ^ 2)) = 0 := by
        linarith
      have hz2 : (mq - mp) ^ 2 / (2 * sp ^ 2) = 0 := by linarith
      have hd : mq = mp := by
        field_simp at hz2
        linarith
      have hs : sq = sp := by
        by_contra hne
        have hne2 : sq ^ 2 / sp ^ 2 ≠ 1 := by
          intro he
          apply hne
          field_simp at he
          exact he
        have hstrict := Real.log_lt_sub_one_of_pos hrat hne2
        linarith
      exact ⟨hd, hs⟩
    · rintro ⟨hd, hs⟩
      subst hd
      subst hs
      rw [div_self (ne_of_gt hsq2)]
      simp [Real.log_one]

/-- C9: the closed-form Gaussian KL of spec 4.7 is non-negative over any
number of dimensions, and zero exactly when the two diagonal Gaussians
coincide in every dimension. -/
theorem klqp_C9 (lq sq lp sp : List ℝ)
    (hl1 : sq.length = lq.length) (hl2 : lp.length = lq.length)
    (hl3 : sp.length = lq.length)
    (hq : ∀ x ∈ sq, 0 < x) (hp : ∀ x ∈ sp, 0 < x) :
    0 ≤ (kl_multivariate_normal Real.log lq sq lp sp).sum ∧
    ((kl_multivariate_normal Real.log lq sq lp sp).sum = 0 ↔
      lq = lp ∧ sq = sp) := by
  induction lq generalizing sq lp sp with
  | nil =>
    rw [List.length_nil, List.length_eq_zero] at hl1 hl2 hl3
    subst hl1
    subst hl2
    subst hl3
    simp [kl_multivariate_normal]
  | cons a lq ih =>
    cases sq with
    | nil => simp at hl1
    | cons b sq =>
      cases lp with
      | nil => simp at hl2
      | cons c lp =>
        cases sp with
        | nil => simp at hl3
        | cons d sp =>
          have hb : 0 < b := hq b (by simp)
          have hd : 0 < d := hp d (by simp)
          have hq2 : ∀ x ∈ sq, 0 < x := fun x hx => hq x (by simp [hx])
          have hp2 : ∀ x ∈ sp, 0 < x := fun x hx => hp x (by simp [hx])
          have hl1b : sq.length = lq.length := by simpa using hl1
          have hl2b : lp.length = lq.length := by simpa using hl2
          have hl3b : sp.length = lq.length := by simpa using hl3
          obtain ⟨ihn, ihe⟩ := ih sq lp sp hl1b hl2b hl3b hq2 hp2
          obtain ⟨hn1, he1⟩ := kl_dim_nonneg a b c d hb hd
          have hsum : (kl_multivariate_normal Real.log
              (a :: lq) (b :: sq) (c :: lp) (d :: sp)).sum =
              (Real.log (d / b) + (b ^ 2 + (a - c) ^ 2) / (2 * d ^ 2) - 1 / 2) +
              (kl_multivariate_normal Real.log lq sq lp sp).sum := by
            simp [kl_multivariate_normal]
          rw [hsum]
          constructor
          · linarith
          · constructor
            · intro h0
              have hz1 : Real.log (d / b) +
                  (b ^ 2 + (a - c) ^ 2) / (2 * d ^ 2) - 1 / 2 = 0 := by linarith
              have hz2 : (kl_multivariate_normal Real.log lq sq lp sp).sum = 0 := by
                linarith
              obtain ⟨hac, hbd⟩ := he1.mp hz1
              obtain ⟨hlq, hsq⟩ := ihe.mp hz2
              simp [hac, hbd, hlq, hsq]
            · rintro ⟨h1, h2⟩
              injection h1 with hac hlq
              injection h2 with hbd hsq
              have e1 := he1.mpr ⟨hac, hbd⟩
              have e2 := ihe.mpr ⟨hlq, hsq⟩
              linarith

theorem klqp_C9_witness :
    (∀ x ∈ ([1] : List ℝ), 0 < x) ∧
    (0 ≤ (kl_multivariate_normal Real.log [0] [1] [0] [1]).sum ∧
      ((kl_multivariate_normal Real.log [0] [1] [0] [1]).sum = 0 ↔
        ([0] : List ℝ) = [0] ∧ ([1] : List ℝ) = [1])) :=
  ⟨by norm_num,
    klqp_C9 [0] [1] [0] [1] rfl rfl rfl (by norm_num) (by norm_num)⟩

theorem dget_append_of_mem {A B : List (Nat × α)} {k : Nat} (dflt : α)
    (h : k ∈ dkeys A) :
    dget (A ++ B) k dflt = dget A k dflt := by
  unfold dget
  rw [lookup_append_of_mem h]

theorem dget_append_of_not_mem {A B : List (Nat × α)} {k : Nat} (dflt : α)
    (h : k ∉ dkeys A) :
    dget (A ++ B) k dflt = dget B k dflt := by
  unfold dget
  rw [lookup_append_of_not_mem h]

theorem dget_map_self (kf : γ → Nat) (vf : γ → α) {l : List γ} (dflt : α)
    (hn : (l.map kf).Nodup) {x : γ} (hx : x ∈ l) :
    dget (l.map (fun y => (kf y, vf y))) (kf x) dflt = vf x := by
  unfold dget
  rw [lookup_map_self kf vf hn hx]
  rfl

theorem dget_not_mem {d : List (Nat × α)} {k : Nat} (dflt : α)
    (h : k ∉ dkeys d) :
    dget d k dflt = dflt := by
  unfold dget
  rw [lookup_not_mem h]
  rfl

theorem foldl_rbQStepF (env : Env K) (s : Nat) (l : List (Nat × Nat))
    (d q : List (Nat × TFScalar K)) :
    l.foldl (rbQStepF env s) (d, q) =
      (l.foldl (fun d2 zq => dinsert d2 zq.1 (sampleT env s zq.1)) d,
       l.foldl (fun q2 zq => dinsert q2 zq.1
         (q_term env zq.2 (stop_gradient (sampleT env s zq.1)))) q) := by
  induction l generalizing d q with
  | nil => rfl
  | cons a l ih => simp [List.foldl_cons, rbQStepF, ih]

theorem zfold_eq (env : Env K) (s : Nat)
    (h : (env.latent_vars.map (fun zq => zq.1)).Nodup) :
    env.latent_vars.foldl
      (fun d2 zq => dinsert d2 zq.1 (sampleT env s zq.1)) [] =
      spec_z_sample env s := by
  have h2 := foldl_dinsert_fresh (fun zq : Nat × Nat => zq.1)
    (fun zq : Nat × Nat => sampleT env s zq.1) env.latent_vars
    [] h (by simp [dkeys])
  simpa [spec_z_sample] using h2

theorem rbIter_base (env : Env K) (hw : EnvWF env) (s : Nat) :
    rbIter env ([], []) s =
      (env.latent_vars.map (fun zq => (zq.1,
          p_term env zq.1 (dict_swap env (spec_z_sample env s))
            (dget (dict_swap env (spec_z_sample env s)) zq.1 (constT 0)))) ++
        (env.data.filter (fun e => e.2.1)).map (fun e => (e.1,
          p_term env e.1 (dict_swap env (spec_z_sample env s)) (constT e.2.2))),
       env.latent_vars.map (fun zq => (zq.1,
          q_term env zq.2 (stop_gradient (sampleT env s zq.1))))) := by
  simp only [rbIter]
  rw [foldl_rbQStepF]
  rw [zfold_eq env s hw.1]
  congr 1
  · rw [foldl_guard_filter]
    have hA := foldl_dinsert_fresh (fun zq : Nat × Nat => zq.1)
      (fun zq : Nat × Nat => p_term env zq.1
        (dict_swap env (spec_z_sample env s))
        (dget (dict_swap env (spec_z_sample env s)) zq.1 (constT 0)))
      env.latent_vars [] hw.1 (by simp [dkeys])
    rw [List.nil_append] at hA
    rw [hA]
    have hB := foldl_dinsert_fresh
      (fun e : Nat × Bool × K => e.1)
      (fun e : Nat × Bool × K => p_term env e.1
        (dict_swap env (spec_z_sample env s)) (constT e.2.2))
      (env.data.filter (fun e => e.2.1))
      (env.latent_vars.map (fun zq => (zq.1,
        p_term env zq.1 (dict_swap env (spec_z_sample env s))
          (dget (dict_swap env (spec_z_sample env s)) zq.1 (constT 0)))))
      hw.2.1 ?_
    · rw [hB]
    · intro e he hk
      rw [dkeys_pairs] at hk
      exact hw.2.2 e.1 hk (List.mem_map_of_mem _ he)
  · have hQ := foldl_dinsert_fresh (fun zq : Nat × Nat => zq.1)
      (fun zq : Nat × Nat =>
        q_term env zq.2 (stop_gradient (sampleT env s zq.1)))
      env.latent_vars [] hw.1 (by simp [dkeys])
    simpa using hQ

theorem rbIter_step (env : Env K) (hw : EnvWF env) (s0 s : Nat) :
    rbIter env
      (env.latent_vars.map (fun zq => (zq.1,
          p_term env zq.1 (dict_swap env (spec_z_sample env s0))
            (dget (dict_swap env (spec_z_sample env s0)) zq.1 (constT 0)))) ++
        (env.data.filter (fun e => e.2.1)).map (fun e => (e.1,
          p_term env e.1 (dict_swap env (spec_z_sample env s0)) (constT e.2.2))),
       env.latent_vars.map (fun zq => (zq.1,
          q_term env zq.2 (stop_gradient (sampleT env s0 zq.1))))) s =
      (env.latent_vars.map (fun zq => (zq.1,
          p_term env zq.1 (dict_swap env (spec_z_sample env s))
            (dget (dict_swap env (spec_z_sample env s)) zq.1 (constT 0)))) ++
        (env.data.filter (fun e => e.2.1)).map (fun e => (e.1,
          p_term env e.1 (dict_swap env (spec_z_sample env s)) (constT e.2.2))),
       env.latent_vars.map (fun zq => (zq.1,
          q_term env zq.2 (stop_gradient (sampleT env s zq.1))))) := by
  simp only [rbIter]
  rw [foldl_rbQStepF]
  rw [zfold_eq env s hw.1]
  congr 1
  · rw [foldl_guard_filter]
    have hdisj : ∀ zq ∈ env.latent_vars,
        zq.1 ∉ dkeys ((env.data.filter (fun e => e.2.1)).map (fun e => (e.1,
          p_term env e.1 (dict_swap env (spec_z_sample env s0)) (constT e.2.2)))) := by
      intro zq hzq hk
      rw [dkeys_pairs] at hk
      exact hw.2.2 zq.1 (List.mem_map_of_mem _ hzq) hk
    have hA := foldl_dinsert_refresh (fun zq : Nat × Nat => zq.1)
      (fun zq : Nat × Nat => p_term env zq.1
        (dict_swap env (spec_z_sample env s))
        (dget (dict_swap env (spec_z_sample env s)) zq.1 (constT 0)))
      env.latent_vars
      ((env.data.filter (fun e => e.2.1)).map (fun e => (e.1,
        p_term env e.1 (dict_swap env (spec_z_sample env s0)) (constT e.2.2))))
      (fun zq : Nat × Nat => p_term env zq.1
        (dict_swap env (spec_z_sample env s0))
        (dget (dict_swap env (spec_z_sample env s0)) zq.1 (constT 0)))
      hw.1 hdisj
    rw [hA]
    have hskip := foldl_dinsert_skip
      (fun e : Nat × Bool × K => e.1)
      (fun e : Nat × Bool × K => p_term env e.1
        (dict_swap env (spec_z_sample env s)) (constT e.2.2))
      (env.data.filter (fun e => e.2.1))
      (env.latent_vars.map (fun zq => (zq.1,
        p_term env zq.1 (dict_swap env (spec_z_sample env s))
          (dget (dict_swap env (spec_z_sample env s)) zq.1 (constT 0)))))
      ((env.data.filter (fun e => e.2.1)).map (fun e => (e.1,
        p_term env e.1 (dict_swap env (spec_z_sample env s0)) (constT e.2.2))))
      ?_
    · rw [hskip]
      have hBr := foldl_dinsert_refresh (fun e : Nat × Bool × K => e.1)
        (fun e : Nat × Bool × K => p_term env e.1
          (dict_swap env (spec_z_sample env s)) (constT e.2.2))
        (env.data.filter (fun e => e.2.1)) ([] : List (Nat × TFScalar K))
        (fun e : Nat × Bool × K => p_term env e.1
          (dict_swap env (spec_z_sample env s0)) (constT e.2.2))
        hw.2.1 (by simp [dkeys])
      rw [List.append_nil, List.append_nil] at hBr
      rw [hBr]
    · intro e he hk
      rw [dkeys_pairs] at hk
      exact hw.2.2 e.1 hk (List.mem_map_of_mem _ he)
  · have hQ := foldl_dinsert_refresh (fun zq : Nat × Nat => zq.1)
      (fun zq : Nat × Nat =>
        q_term env zq.2 (stop_gradient (sampleT env s zq.1)))
      env.latent_vars ([] : List (Nat × TFScalar K))
      (fun zq : Nat × Nat =>
        q_term env zq.2 (stop_gradient (sampleT env s0 zq.1)))
      hw.1 (by simp [dkeys])
    rw [List.append_nil, List.append_nil] at hQ
    rw [hQ]

theorem rb_records_eq (env : Env K) (hw : EnvWF env) (hn : 1 ≤ env.n_samples) :
    rb_records env =
      (env.latent_vars.map (fun zq => (zq.1,
          p_term env zq.1 (dict_swap env (spec_z_sample env (env.n_samples - 1)))
            (dget (dict_swap env (spec_z_sample env (env.n_samples - 1))) zq.1
              (constT 0)))) ++
        (env.data.filter (fun e => e.2.1)).map (fun e => (e.1,
          p_term env e.1 (dict_swap env (spec_z_sample env (env.n_samples - 1)))
            (constT e.2.2))),
       env.latent_vars.map (fun zq => (zq.1,
          q_term env zq.2
            (stop_gradient (sampleT env (env.n_samples - 1) zq.1))))) := by
  obtain ⟨m, hm⟩ : ∃ m, env.n_samples = m + 1 :=
    ⟨env.n_samples - 1, by omega⟩
  unfold rb_records
  rw [hm]
  simp only [Nat.add_sub_cancel]
  clear hm hn
  induction m with
  | zero =>
    rw [List.range_succ, List.range_zero]
    simpa using rbIter_base env hw 0
  | succ k ih =>
    rw [List.range_succ, List.foldl_append, ih]
    simp only [List.foldl_cons, List.foldl_nil]
    exact rbIter_step env hw k (k + 1)

theorem dget_canonQ (env : Env K) (hw : EnvWF env) (s rv : Nat) :
    dget (env.latent_vars.map (fun zq => (zq.1,
        q_term env zq.2 (stop_gradient (sampleT env s zq.1))))) rv (constT 0) =
      match env.latent_vars.find? (fun zq => zq.1 == rv) with
      | some zq => q_term env zq.2 (stop_gradient (sampleT env s zq.1))
      | none => constT 0 := by
  cases hf : env.latent_vars.find? (fun zq => zq.1 == rv) with
  | none =>
    have hmem : rv ∉ dkeys (env.latent_vars.map (fun zq => (zq.1,
        q_term env zq.2 (stop_gradient (sampleT env s zq.1))))) := by
      rw [dkeys_pairs]
      intro hmem2
      rcases List.mem_map.mp hmem2 with ⟨zq, hzq, hrv⟩
      have h3 := List.find?_eq_none.mp hf zq hzq
      simp [hrv] at h3
    unfold dget
    rw [lookup_not_mem hmem]
    rfl
  | some zq =>
    have hmem := List.mem_of_find?_eq_some hf
    have hrv : zq.1 = rv := by simpa using List.find?_some hf
    unfold dget
    rw [← hrv]
    rw [lookup_map_self (fun zq : Nat × Nat => zq.1)
      (fun zq : Nat × Nat =>
        q_term env zq.2 (stop_gradient (sampleT env s zq.1))) hw.1 hmem]
    rfl

theorem dget_canonP (env : Env K) (hw : EnvWF env) (s rv : Nat) :
    dget (env.latent_vars.map (fun zq => (zq.1,
        p_term env zq.1 (dict_swap env (spec_z_sample env s))
          (dget (dict_swap env (spec_z_sample env s)) zq.1 (constT 0)))) ++
      (env.data.filter (fun e => e.2.1)).map (fun e => (e.1,
        p_term env e.1 (dict_swap env (spec_z_sample env s)) (constT e.2.2))))
      rv (constT 0) =
      (if env.latent_vars.any (fun zq => zq.1 == rv) then
        p_term env rv (dict_swap env (spec_z_sample env s))
          (dget (dict_swap env (spec_z_sample env s)) rv (constT 0))
      else
        match (env.data.filter (fun e => e.2.1)).find? (fun e => e.1 == rv) with
        | some e => p_term env rv (dict_swap env (spec_z_sample env s)) (constT e.2.2)
        | none => constT 0) := by
  by_cases hin : env.latent_vars.any (fun zq => zq.1 == rv) = true
  · rw [if_pos hin]
    obtain ⟨zq, hzq, hpred⟩ := List.any_eq_true.mp hin
    have hrv : zq.1 = rv := by simpa using hpred
    rw [← hrv]
    rw [dget_append_of_mem (constT 0) (by
      rw [dkeys_pairs]
      exact List.mem_map_of_mem _ hzq)]
    exact dget_map_self (fun zq : Nat × Nat => zq.1)
      (fun zq : Nat × Nat => p_term env zq.1
        (dict_swap env (spec_z_sample env s))
        (dget (dict_swap env (spec_z_sample env s)) zq.1 (constT 0)))
      (constT 0) hw.1 hzq
  · rw [if_neg hin]
    have hnotA : rv ∉ dkeys (env.latent_vars.map (fun zq => (zq.1,
        p_term env zq.1 (dict_swap env (spec_z_sample env s))
          (dget (dict_swap env (spec_z_sample env s)) zq.1 (constT 0))))) := by
      rw [dkeys_pairs]
      intro hmem2
      rcases List.mem_map.mp hmem2 with ⟨zq, hzq, hrv⟩
      exact hin (List.any_eq_true.mpr ⟨zq, hzq, by simp [hrv]⟩)
    rw [dget_append_of_not_mem (constT 0) hnotA]
    cases hf : (env.data.filter (fun e => e.2.1)).find? (fun e => e.1 == rv) with
    | none =>
      have hmem : rv ∉ dkeys ((env.data.filter (fun e => e.2.1)).map (fun e => (e.1,
          p_term env e.1 (dict_swap env (spec_z_sample env s)) (constT e.2.2)))) := by
        rw [dkeys_pairs]
        intro hmem2
        rcases List.mem_map.mp hmem2 with ⟨e, he, hrv⟩
        have h3 := List.find?_eq_none.mp hf e he
        simp [hrv] at h3
      exact dget_not_mem (constT 0) hmem
    | some e =>
      have hmem := List.mem_of_find?_eq_some hf
      have hrv : e.1 = rv := by simpa using List.find?_some hf
      rw [← hrv]
      exact dget_map_self (fun e : Nat × Bool × K => e.1)
        (fun e : Nat × Bool × K => p_term env e.1
          (dict_swap env (spec_z_sample env s)) (constT e.2.2))
        (constT 0) hw.2.1 hmem

theorem canonQ_val (env : Env K) (hw : EnvWF env) (rv : Nat) :
    (dget (env.latent_vars.map (fun zq => (zq.1,
        q_term env zq.2
          (stop_gradient (sampleT env (env.n_samples - 1) zq.1))))) rv
      (constT 0)).val = spec_rb_q_record env rv := by
  rw [dget_canonQ env hw _ rv]
  unfold spec_rb_q_record
  cases env.latent_vars.find? (fun zq => zq.1 == rv) with
  | none => rfl
  | some zq => simp [q_term, stop_gradient, sampleT, constT]

theorem canonQ_grd (env : Env K) (hw : EnvWF env) (rv v : Nat) :
    (dget (env.latent_vars.map (fun zq => (zq.1,
        q_term env zq.2
          (stop_gradient (sampleT env (env.n_samples - 1) zq.1))))) rv
      (constT 0)).grd v = spec_rb_q_record_grd env rv v := by
  rw [dget_canonQ env hw _ rv]
  unfold spec_rb_q_record_grd
  cases env.latent_vars.find? (fun zq => zq.1 == rv) with
  | none => rfl
  | some zq => simp [q_term, stop_gradient, sampleT, constT]

theorem canonP_val (env : Env K) (hw : EnvWF env) (rv : Nat) :
    (dget (env.latent_vars.map (fun zq => (zq.1,
        p_term env zq.1 (dict_swap env (spec_z_sample env (env.n_samples - 1)))
          (dget (dict_swap env (spec_z_sample env (env.n_samples - 1))) zq.1
            (constT 0)))) ++
      (env.data.filter (fun e => e.2.1)).map (fun e => (e.1,
        p_term env e.1 (dict_swap env (spec_z_sample env (env.n_samples - 1)))
          (constT e.2.2)))) rv (constT 0)).val = spec_rb_p_record env rv := by
  rw [dget_canonP env hw _ rv]
  unfold spec_rb_p_record
  by_cases hin : env.latent_vars.any (fun zq => zq.1 == rv) = true
  · rw [if_pos hin, if_pos hin]
    obtain ⟨zq, hzq, hpred⟩ := List.any_eq_true.mp hin
    have hrv : zq.1 = rv := by simpa using hpred
    rw [← hrv]
    rw [dget_swap_latent env _ hw hzq]
    simp [p_term, dvals_swap env _ hw, sampleT]
  · rw [if_neg hin, if_neg hin]
    cases (env.data.filter (fun e => e.2.1)).find? (fun e => e.1 == rv) with
    | none => rfl
    | some e => simp [p_term, dvals_swap env _ hw, constT]

theorem stop_gradient_val (x : TFScalar K) : (stop_gradient x).val = x.val := rfl

theorem stop_gradient_grd (x : TFScalar K) (i : Nat) :
    (stop_gradient x).grd i = 0 := rfl

theorem rb_factor_grads_eq (env : Env ℚ) (var_list : List Nat) (zq : Nat × Nat)
    (hw : EnvWF env) (hn : 1 ≤ env.n_samples) :
    rb_factor_grads env var_list zq =
      (env.get_variables zq.2 var_list).map (fun v =>
        (-(spec_rb_qi_grd env zq v *
            (spec_rb_pi env zq - spec_rb_qi env zq)), v)) := by
  have hne : (env.n_samples : ℚ) ≠ 0 := by
    simp only [ne_eq, Nat.cast_eq_zero]
    omega
  simp only [rb_factor_grads]
  rw [rb_records_eq env hw hn]
  unfold gradientsT
  rw [zip_map_self]
  apply List.map_congr_left
  intro v hv
  congr 1
  rw [zipWith_map_map, List.map_map, zipWith_map_map, negT_mean_grd,
    List.map_map, List.length_map, List.length_range]
  have hconst : ∀ c : ℚ, (((List.range env.n_samples).map
      (fun _ : Nat => c)).sum / (env.n_samples : ℚ)) = c := by
    intro c
    rw [List.map_const', List.sum_replicate, List.length_range, nsmul_eq_mul]
    exact mul_div_cancel_left₀ c hne
  simp only [Function.comp_def, mulT, stop_gradient_val, stop_gradient_grd,
    subT, sumT, List.map_map]
  rw [hconst]
  simp only [canonQ_val env hw, canonQ_grd env hw, canonP_val env hw]
  simp only [mul_zero, add_zero]
  unfold spec_rb_qi spec_rb_qi_grd spec_rb_pi spec_rb_mrvs
  ring

/-- C7: in `build_score_rb_loss_and_gradients` the gradient pairs for each
approximation qz are the derivatives of the per-factor surrogate built only
from the recorded log-densities of z and of z's descendants among the model
RandomVariables (never the full joint); consequently these pairs are
unchanged under any perturbation of the model terms of RandomVariables
outside that set. -/
theorem klqp_C7 (env : Env ℚ) (var_list : List Nat) (zq : Nat × Nat)
    (hw : EnvWF env) (hn : 1 ≤ env.n_samples) (hmem : zq ∈ env.latent_vars) :
    (build_score_rb_loss_and_gradients env var_list).2 =
      env.latent_vars.foldl
        (fun acc z2 => acc ++ rb_factor_grads env var_list z2) [] ∧
    rb_factor_grads env var_list zq =
      (env.get_variables zq.2 var_list).map (fun v =>
        (-(spec_rb_qi_grd env zq v *
            (spec_rb_pi env zq - spec_rb_qi env zq)), v)) ∧
    (∀ env2 : Env ℚ,
      env2.latent_vars = env.latent_vars → env2.data = env.data →
      env2.n_samples = env.n_samples → env2.sampleVal = env.sampleVal →
      env2.get_descendants = env.get_descendants →
      env2.get_variables = env.get_variables →
      (∀ rv ∈ env.get_descendants zq.1 (model_rvs env) ++ [zq.1],
        env2.pVal rv = env.pVal rv ∧
        ∀ z2 ∈ env.latent_vars, z2.1 = rv →
          env2.qVal z2.2 = env.qVal z2.2 ∧
          env2.qDParam z2.2 = env.qDParam z2.2) →
      rb_factor_grads env2 var_list zq = rb_factor_grads env var_list zq) := by
  refine ⟨rfl, rb_factor_grads_eq env var_list zq hw hn, ?_⟩
  intro env2 hlv hdata hn2 hsv hgd hgv hagree
  have hw2 : EnvWF env2 := by
    unfold EnvWF
    rw [hlv, hdata]
    exact hw
  have hn2b : 1 ≤ env2.n_samples := by
    rw [hn2]
    exact hn
  rw [rb_factor_grads_eq env2 var_list zq hw2 hn2b,
    rb_factor_grads_eq env var_list zq hw hn]
  have hmrvs : spec_rb_mrvs env2 zq = spec_rb_mrvs env zq := by
    unfold spec_rb_mrvs model_rvs
    rw [hgd, hlv, hdata]
  have hswap : spec_swap env2 (env.n_samples - 1) =
      spec_swap env (env.n_samples - 1) := by
    unfold spec_swap
    rw [hlv, hdata, hsv]
  have hqrec : ∀ rv ∈ spec_rb_mrvs env zq,
      spec_rb_q_record env2 rv = spec_rb_q_record env rv := by
    intro rv hrv
    unfold spec_rb_q_record
    rw [hlv, hn2, hsv]
    cases hf : env.latent_vars.find? (fun z2 => z2.1 == rv) with
    | none => rfl
    | some z2 =>
      have hm2 := List.mem_of_find?_eq_some hf
      have hr2 : z2.1 = rv := by simpa using List.find?_some hf
      show env2.qVal z2.2 (env.sampleVal (env.n_samples - 1) z2.1) =
        env.qVal z2.2 (env.sampleVal (env.n_samples - 1) z2.1)
      rw [((hagree rv (by
        unfold spec_rb_mrvs at hrv
        exact hrv)).2 z2 hm2 hr2).1]
  have hqrecg : ∀ rv ∈ spec_rb_mrvs env zq, ∀ v,
      spec_rb_q_record_grd env2 rv v = spec_rb_q_record_grd env rv v := by
    intro rv hrv v
    unfold spec_rb_q_record_grd
    rw [hlv, hn2, hsv]
    cases hf : env.latent_vars.find? (fun z2 => z2.1 == rv) with
    | none => rfl
    | some z2 =>
      have hm2 := List.mem_of_find?_eq_some hf
      have hr2 : z2.1 = rv := by simpa using List.find?_some hf
      show env2.qDParam z2.2 (env.sampleVal (env.n_samples - 1) z2.1) v =
        env.qDParam z2.2 (env.sampleVal (env.n_samples - 1) z2.1) v
      rw [((hagree rv (by
        unfold spec_rb_mrvs at hrv
        exact hrv)).2 z2 hm2 hr2).2]
  have hprec : ∀ rv ∈ spec_rb_mrvs env zq,
      spec_rb_p_record env2 rv = spec_rb_p_record env rv := by
    intro rv hrv
    unfold spec_rb_p_record
    rw [hlv, hn2, hsv, hdata, hswap]
    rw [(hagree rv (by
      unfold spec_rb_mrvs at hrv
      exact hrv)).1]
  have hqi : spec_rb_qi env2 zq = spec_rb_qi env zq := by
    unfold spec_rb_qi
    rw [hmrvs, hlv]
    congr 1
    apply List.map_congr_left
    intro rv hrv
    exact hqrec rv (List.mem_of_mem_filter hrv)
  have hqig : ∀ v, spec_rb_qi_grd env2 zq v = spec_rb_qi_grd env zq v := by
    intro v
    unfold spec_rb_qi_grd
    rw [hmrvs, hlv]
    congr 1
    apply List.map_congr_left
    intro rv hrv
    exact hqrecg rv (List.mem_of_mem_filter hrv) v
  have hpi : spec_rb_pi env2 zq = spec_rb_pi env zq := by
    unfold spec_rb_pi
    rw [hmrvs]
    congr 1
    apply List.map_congr_left
    intro rv hrv
    exact hprec rv hrv
  rw [hgv]
  apply List.map_congr_left
  intro v hv
  rw [hqi, hqig v, hpi]

theorem klqp_C7_witness :
    EnvWF baseEnv ∧ 1 ≤ baseEnv.n_samples ∧ ((0, 10) : Nat × Nat) ∈ baseEnv.latent_vars ∧
    ((build_score_rb_loss_and_gradients baseEnv [3]).2 =
      baseEnv.latent_vars.foldl
        (fun acc z2 => acc ++ rb_factor_grads baseEnv [3] z2) [] ∧
    rb_factor_grads baseEnv [3] (0, 10) =
      (baseEnv.get_variables 10 [3]).map (fun v =>
        (-(spec_rb_qi_grd baseEnv (0, 10) v *
            (spec_rb_pi baseEnv (0, 10) - spec_rb_qi baseEnv (0, 10))), v)) ∧
    (∀ env2 : Env ℚ,
      env2.latent_vars = baseEnv.latent_vars → env2.data = baseEnv.data →
      env2.n_samples = baseEnv.n_samples → env2.sampleVal = baseEnv.sampleVal →
      env2.get_descendants = baseEnv.get_descendants →
      env2.get_variables = baseEnv.get_variables →
      (∀ rv ∈ baseEnv.get_descendants 0 (model_rvs baseEnv) ++ [0],
        env2.pVal rv = baseEnv.pVal rv ∧
        ∀ z2 ∈ baseEnv.latent_vars, z2.1 = rv →
          env2.qVal z2.2 = baseEnv.qVal z2.2 ∧
          env2.qDParam z2.2 = baseEnv.qDParam z2.2) →
      rb_factor_grads env2 [3] (0, 10) = rb_factor_grads baseEnv [3] (0, 10))) :=
  ⟨by decide, by decide, by decide,
    klqp_C7 baseEnv [3] (0, 10) (by decide) (by decide) (by decide)⟩

/-- C8: the records of `build_score_rb_loss_and_gradients` are NOT per-sample.
`p_log_probs = [{}] * n_samples` aliases one dict across all sample indices,
so every index holds only the last sample's log-densities and the diagnostic
loss is the joint difference at the LAST draw, not at index 0.  At envC8
(n_samples = 2, sample s has value s, q log-density 2x, model log-density 3x)
the code returns loss -(3*1 - 2*1) = -1, whereas the joint difference at
sample index 0's draw is -(3*0 - 2*0) = 0. -/
theorem klqp_C8_bug :
    (build_score_rb_loss_and_gradients envC8 []).1.val = -1 ∧
    -(envC8.pVal 0 (spec_swap envC8 0) (envC8.sampleVal 0 0) -
      envC8.qVal 10 (envC8.sampleVal 0 0)) = 0 := by
  constructor
  · norm_num [build_score_rb_loss_and_gradients, rb_records, rbIter, rbQStepF,
      dict_swap, dinsert, dget, q_term, p_term, sampleT, constT, sumT, subT,
      negT, stop_gradient, dvals, envC8, List.range_succ, List.lookup]
  · norm_num [envC8]

end EdwardKLqp
